import Mathlib

/-!
Shallow embedding of `relion_star_handler.py` (class `RelionMetaData`).

A star file is modelled as a list of lines; a line is a list of characters
with the trailing newline stripped (Python's `for line in f` yields lines
whose trailing newline is irrelevant to every operation the code performs:
`startswith` with newline-free arguments, `strip`, `split`).

Python's raised exceptions (`assert` failures, numpy shape errors, pandas
index errors, unbound locals) are modelled as values of `PyErr` in `Except`.
-/

abbrev Line : Type := List Char

/-- Character list of a string literal. -/
def chars (s : String) : Line := s.data

/-- Python `line.strip() == ''`: the line is empty or all whitespace. -/
def isBlank (l : Line) : Bool := l.all Char.isWhitespace

/-- Worker for `splitWs`; `cur` holds the characters of the token being
read, in reverse order. -/
def splitWsAux : Line → Line → List Line
  | cur, [] => if cur = [] then [] else [cur.reverse]
  | cur, c :: cs =>
    if c.isWhitespace then
      if cur = [] then splitWsAux [] cs else cur.reverse :: splitWsAux [] cs
    else splitWsAux (c :: cur) cs

/-- Python `str.split()` with no argument: split on runs of whitespace,
dropping empty tokens.  `line.strip().split()` equals `line.split()`, so a
single function models both call patterns in the source. -/
def splitWs (l : Line) : List Line := splitWsAux [] l

/-- One of Python's fatal outcomes, as raised by the source. -/
inductive PyErr : Type
  /-- `UnboundLocalError`: `_read_block` on an exhausted stream never binds
  `line`, and `body = [line.strip().split()]` then fails. -/
  | unboundLocal
  /-- `np.array(body)` on rows of differing lengths (ragged array). -/
  | raggedArray
  /-- the `assert len(headers) == body.shape[1]` in `_read_block`. -/
  | assertArity
  /-- the `assert relion31 is not None` in `load`. -/
  | assertInvalidStar
  /-- pandas `IndexError` from `.iloc` with an out-of-bounds position. -/
  | indexOutOfBounds
deriving DecidableEq

/-- A `for line in f: if p(line): break` loop over the remaining lines.
Returns the value of the Python variable `line` after the loop (the matched
line on `break`, the last consumed line on exhaustion, the inherited value
when there was nothing to consume) and the lines left unconsumed. -/
def scanFor (p : Line → Bool) : Option Line → List Line → Option Line × List Line
  | last, [] => (last, [])
  | _, l :: ls => if p l then (some l, ls) else scanFor p (some l) ls

/-- The header-collection loop of `_read_block`: consume lines while they
start with `'_'`, keeping each line's first token
(`line.strip().split()[0]`); the first non-matching line stays bound to
`line` and is not pushed back. Returns (headers, `line`, remaining lines). -/
def readHeaders : Option Line → List Line → List Line × Option Line × List Line
  | last, [] => ([], last, [])
  | _last, l :: ls =>
    if (chars "_").isPrefixOf l then
      let r := readHeaders (some l) ls
      ((splitWs l).headD [] :: r.1, r.2)
    else ([], some l, ls)

/-- The body loop of `_read_block`: append `line.strip().split()` for each
line until a blank line (consumed) or end of stream. -/
def readBody : List Line → List (List Line) × List Line
  | [] => ([], [])
  | l :: ls =>
    if isBlank l then ([], ls)
    else
      let r := readBody ls
      (splitWs l :: r.1, r.2)

/-- `RelionMetaData._read_block(f, blockname)`: scan to the block-name line,
scan to the `loop_` line, collect headers, collect the body (seeded with the
line that broke the header loop), build `np.array(body)` and assert its
column count equals the header count.  Returns the headers, the body rows
and the lines left unconsumed on the stream. -/
def read_block (blockname : Line) (f : List Line) :
    Except PyErr (List Line × List (List Line) × List Line) :=
  let s1 := scanFor (fun l => blockname.isPrefixOf l) none f
  let s2 := scanFor (fun l => (chars "loop_").isPrefixOf l) s1.1 s1.2
  let h := readHeaders s2.1 s2.2
  match h.2.1 with
  | none => .error .unboundLocal
  | some line =>
    let b := readBody h.2.2
    let body := splitWs line :: b.1
    if body.all (fun r => r.length = (splitWs line).length) then
      if h.1.length = (splitWs line).length then
        .ok (h.1, body, b.2)
      else .error .assertArity
    else .error .raggedArray

/-- A parsed data block: `pd.DataFrame(data, columns=headers)`, holding the
column names in order and the rows as string-field sequences. -/
structure DataFrame : Type where
  columns : List Line
  rows : List (List Line)
deriving DecidableEq

/-- The `RelionMetaData` instance state set by `__init__`. -/
structure RelionMetaData : Type where
  df_particles : DataFrame
  df_optics : Option DataFrame
  starfile : Option Line
deriving DecidableEq

/-- The version-detection loop of `RelionMetaData.load`: the first token of
each line is compared against `data_optics` and `data_`; blank lines,
comment lines and any other unmatched line all fall through to the next
line.  `none` models the `assert relion31 is not None` failure. -/
def detectRelion31 : List Line → Option Bool
  | [] => none
  | l :: ls =>
    match splitWs l with
    | [] => detectRelion31 ls
    | w :: _ =>
      if w = chars "data_optics" then some true
      else if w = chars "data_" then some false
      else if w.headD ' ' = '#' then detectRelion31 ls
      else detectRelion31 ls

/-- `RelionMetaData._load_relion31`: two `_read_block` calls on one stream,
returning `(df_particles, df_optics)`. -/
def load_relion31 (f : List Line) : Except PyErr (DataFrame × DataFrame) :=
  match read_block (chars "data_optics") f with
  | .error e => .error e
  | .ok (headersOptics, dataOptics, f1) =>
    match read_block (chars "data_particles") f1 with
    | .error e => .error e
    | .ok (headersParticles, dataParticles, _) =>
      .ok (⟨headersParticles, dataParticles⟩, ⟨headersOptics, dataOptics⟩)

/-- `RelionMetaData._load_relion`: one `_read_block` call for the legacy
`data_` block. -/
def load_relion (f : List Line) : Except PyErr DataFrame :=
  match read_block (chars "data_") f with
  | .error e => .error e
  | .ok (headers, data, _) => .ok ⟨headers, data⟩

/-- `RelionMetaData.load(starfile)`: detect the layout on a first pass,
then re-read the file from the start with one or two block reads, and
build the instance with `starfile` recorded. -/
def load (starfile : Line) (f : List Line) : Except PyErr RelionMetaData :=
  match detectRelion31 f with
  | none => .error .assertInvalidStar
  | some true =>
    match load_relion31 f with
    | .error e => .error e
    | .ok (dfParticles, dfOptics) => .ok ⟨dfParticles, some dfOptics, some starfile⟩
  | some false =>
    match load_relion f with
    | .error e => .error e
    | .ok dfParticles => .ok ⟨dfParticles, none, some starfile⟩

/-- Python `str.strip()`: drop whitespace from both ends. -/
def stripLine (l : Line) : Line :=
  ((l.dropWhile Char.isWhitespace).reverse.dropWhile Char.isWhitespace).reverse

/-- Python `' '.join(fields)`. -/
def joinSp : List Line → Line
  | [] => []
  | [x] => x
  | x :: y :: ys => x ++ ' ' :: joinSp (y :: ys)

/-- `RelionMetaData._write_block(f, blockname, df)` as the list of lines it
appends to the file: the stripped block name, a blank line, `loop_`, the
column names joined by newlines (for an empty column list,
`'\n'.join([])` followed by `'\n'` emits a single blank line), one line per
row with fields joined by single spaces, and a trailing blank line. -/
def write_block (blockname : Line) (df : DataFrame) : List Line :=
  stripLine blockname :: [] :: chars "loop_" ::
    ((if df.columns = [] then [[]] else df.columns) ++
      df.rows.map joinSp ++ [[]])

/-- The provenance comment line written by `RelionMetaData.write`;
`ts` stands for the `datetime.datetime.now()` text. -/
def provenance (ts : Line) : Line := chars "# Created by cryoPICLS at " ++ ts

/-- `RelionMetaData.write` as the list of lines of the file it produces:
the provenance comment, a blank line, then either the `data_optics` and
`data_particles` blocks or the single legacy `data_` block. -/
def write (md : RelionMetaData) (ts : Line) : List Line :=
  provenance ts :: [] ::
    (match md.df_optics with
     | some dfOptics =>
       write_block (chars "data_optics") dfOptics ++
         write_block (chars "data_particles") md.df_particles
     | none => write_block (chars "data_") md.df_particles)

/-- pandas `df.iloc[idxs]` restricted to nonnegative positional indices, as
the source's `iloc` uses it: selects rows by position, in order, repeats
allowed; any position at or beyond the row count raises `IndexError`. -/
def ilocDF (df : DataFrame) (idxs : List Nat) : Except PyErr DataFrame :=
  if idxs.all (fun i => i < df.rows.length) then
    .ok ⟨df.columns, idxs.map (fun i => df.rows.getD i [])⟩
  else .error .indexOutOfBounds

/-- `RelionMetaData.iloc(idxs)`: select rows of `df_particles`, pass
`df_optics` through, and leave `starfile` at its `__init__` default of
`None`. -/
def iloc (md : RelionMetaData) (idxs : List Nat) : Except PyErr RelionMetaData :=
  match ilocDF md.df_particles idxs with
  | .error e => .error e
  | .ok dfNew => .ok ⟨dfNew, md.df_optics, none⟩

/-- The first token of the first non-blank, non-comment line of a file, in
the spec's sense of "first meaningful line" (used to state the layout
claims; comment lines are those whose first token begins with `#`). -/
def firstMeaningfulTok : List Line → Option Line
  | [] => none
  | l :: ls =>
    match splitWs l with
    | [] => firstMeaningfulTok ls
    | w :: _ => if w.headD ' ' = '#' then firstMeaningfulTok ls else some w

/-- Modelled from the spec: the block shape the write-output claim
describes — the block-name line, a blank line, the loop-introducer line,
one line per column name in order, one line per row with fields joined by a
single space, and a trailing blank line. For refinement comparison with
`write_block`. -/
def specBlockShape (blockname : Line) (df : DataFrame) : List Line :=
  blockname :: [] :: chars "loop_" ::
    (df.columns ++ df.rows.map joinSp ++ [[]])

/-- Modelled from the spec: the whole-file shape the write-output claim
describes.  For refinement comparison with `write`. -/
def specWriteShape (md : RelionMetaData) (ts : Line) : List Line :=
  provenance ts :: [] ::
    (match md.df_optics with
     | some dfOptics =>
       specBlockShape (chars "data_optics") dfOptics ++
         specBlockShape (chars "data_particles") md.df_particles
     | none => specBlockShape (chars "data_") md.df_particles)

/-- A token is free of whitespace characters. -/
def noWs (l : Line) : Bool := l.all (fun c => !c.isWhitespace)

/-- The conditions under which a data frame survives the write/load round
trip: at least one column, column names carrying the `_` sentinel and no
whitespace, at least one row, every row of the column count with non-empty
whitespace-free fields, and a first row whose first field does not begin
with the header sentinel `_`. -/
def goodDF (df : DataFrame) : Prop :=
  df.columns ≠ [] ∧
  (∀ c ∈ df.columns, (chars "_").isPrefixOf c = true ∧ noWs c = true) ∧
  df.rows ≠ [] ∧
  (∀ r ∈ df.rows, r.length = df.columns.length ∧
    ∀ x ∈ r, x ≠ [] ∧ noWs x = true) ∧
  (chars "_").isPrefixOf ((df.rows.headD []).headD []) = false

instance (df : DataFrame) : Decidable (goodDF df) := by
  unfold goodDF; infer_instance

/-! ### Concrete files and documents used by witnesses and
counterexamples -/

/-- A file whose first meaningful line is `foo_bar`, followed by a
well-formed modern-layout document. -/
def fileC2 : List Line :=
  [chars "foo_bar", chars "data_optics", chars "loop_", chars "_a",
   chars "1", [], chars "data_particles", chars "loop_", chars "_b",
   chars "2", []]

/-- A clean modern-layout file and a clean legacy-layout file, with the
Documents `load` produces from them. -/
def fileModern : List Line :=
  [chars "data_optics", chars "loop_", chars "_a", chars "1", [],
   chars "data_particles", chars "loop_", chars "_b", chars "2", []]

def docModern : RelionMetaData :=
  ⟨⟨[chars "_b"], [[chars "2"]]⟩, some ⟨[chars "_a"], [[chars "1"]]⟩,
    some (chars "in.star")⟩

def fileLegacy : List Line :=
  [chars "data_", chars "loop_", chars "_a", chars "1", []]

def docLegacy : RelionMetaData :=
  ⟨⟨[chars "_a"], [[chars "1"]]⟩, none, some (chars "in.star")⟩

/-- A three-row legacy document for exercising projection. -/
def md3 : RelionMetaData :=
  ⟨⟨[chars "_a"], [[chars "r0"], [chars "r1"], [chars "r2"]]⟩, none, none⟩

/-- A well-behaved modern Document for the round-trip witness. -/
def mdRT : RelionMetaData :=
  ⟨⟨[chars "_rlnImageName", chars "_rlnDefocusU"],
    [[chars "001.mrc", chars "10000"], [chars "002.mrc", chars "10500"]]⟩,
   some ⟨[chars "_rlnVoltage"], [[chars "300"]]⟩, none⟩

/-! ### Tokenizer lemmas -/

theorem splitWsAux_noWs (t : Line) (h : noWs t = true) (cur : Line) :
    splitWsAux cur t = if cur.reverse ++ t = [] then [] else [cur.reverse ++ t] := by
  induction t generalizing cur with
  | nil =>
    simp [splitWsAux]
  | cons c cs ih =>
    have hc : c.isWhitespace = false := by
      have := (List.all_eq_true.mp h) c (by simp)
      simpa using this
    have hcs : noWs cs = true := by
      refine List.all_eq_true.mpr ?_
      intro x hx
      exact (List.all_eq_true.mp h) x (by simp [hx])
    rw [splitWsAux, if_neg (by simp [hc]), ih hcs (c :: cur)]
    simp

theorem splitWs_token (t : Line) (h1 : t ≠ []) (h2 : noWs t = true) :
    splitWs t = [t] := by
  rw [splitWs, splitWsAux_noWs t h2 []]
  simp [h1]

theorem splitWsAux_token_append (t : Line) (h : noWs t = true) (cur r : Line) :
    splitWsAux cur (t ++ r) = splitWsAux (t.reverse ++ cur) r := by
  induction t generalizing cur with
  | nil => simp
  | cons c cs ih =>
    have hc : c.isWhitespace = false := by
      have := (List.all_eq_true.mp h) c (by simp)
      simpa using this
    have hcs : noWs cs = true := by
      refine List.all_eq_true.mpr ?_
      intro x hx
      exact (List.all_eq_true.mp h) x (by simp [hx])
    rw [List.cons_append, splitWsAux, if_neg (by simp [hc]), ih hcs (c :: cur)]
    simp

theorem splitWs_token_space (t : Line) (h1 : t ≠ []) (h2 : noWs t = true) (r : Line) :
    splitWs (t ++ ' ' :: r) = t :: splitWs r := by
  rw [splitWs, splitWsAux_token_append t h2 [] (' ' :: r)]
  rw [splitWsAux]
  have : (' ').isWhitespace = true := by decide
  rw [if_pos this, if_neg (by simpa using h1)]
  simp [splitWs]

theorem splitWs_joinSp (fs : List Line)
    (h : ∀ x ∈ fs, x ≠ [] ∧ noWs x = true) :
    splitWs (joinSp fs) = fs := by
  induction fs with
  | nil => rfl
  | cons x ys ih =>
    match ys with
    | [] =>
      have hx := h x (by simp)
      exact splitWs_token x hx.1 hx.2
    | y :: ys2 =>
      have hx := h x (by simp)
      rw [joinSp, splitWs_token_space x hx.1 hx.2]
      rw [ih (fun z hz => h z (by simp [hz]))]

theorem splitWsAux_blank (l : Line) (h : isBlank l = true) (cur : Line) :
    splitWsAux cur l = if cur = [] then [] else [cur.reverse] := by
  induction l generalizing cur with
  | nil => rfl
  | cons c cs ih =>
    have hc : c.isWhitespace = true := (List.all_eq_true.mp h) c (by simp)
    have hcs : isBlank cs = true := by
      refine List.all_eq_true.mpr ?_
      intro x hx
      exact (List.all_eq_true.mp h) x (by simp [hx])
    rw [splitWsAux, if_pos hc]
    by_cases hcur : cur = []
    · rw [if_pos hcur, if_pos hcur, ih hcs []]
      simp
    · rw [if_neg hcur, if_neg hcur, ih hcs []]
      simp

theorem splitWs_blank (l : Line) (h : isBlank l = true) : splitWs l = [] := by
  rw [splitWs, splitWsAux_blank l h []]
  simp

theorem splitWsAux_ne_nil (l : Line) (cur : Line)
    (h : cur ≠ [] ∨ isBlank l = false) : splitWsAux cur l ≠ [] := by
  induction l generalizing cur with
  | nil =>
    rcases h with h | h
    · simp [splitWsAux, h]
    · simp [isBlank] at h
  | cons c cs ih =>
    rw [splitWsAux]
    by_cases hc : c.isWhitespace
    · rw [if_pos hc]
      have hcs : cur = [] → isBlank cs = false := by
        intro hcur
        rcases h with h | h
        · exact absurd hcur h
        · simpa [isBlank, hc] using h
      by_cases hcur : cur = []
      · rw [if_pos hcur]
        exact ih [] (Or.inr (hcs hcur))
      · rw [if_neg hcur]
        simp
    · rw [if_neg hc]
      exact ih (c :: cur) (Or.inl (by simp))

theorem splitWs_ne_nil (l : Line) (h : isBlank l = false) : splitWs l ≠ [] :=
  splitWsAux_ne_nil l [] (Or.inr h)

/-! ### Prefix and join lemmas -/

theorem isPrefixOf_self (l : Line) : l.isPrefixOf l = true := by
  induction l with
  | nil => rfl
  | cons c cs ih => simp [List.isPrefixOf, ih]

theorem isPrefixOf_cons_nil (a : Char) (as : Line) :
    (a :: as).isPrefixOf [] = false := rfl

theorem isPrefixOf_cons_ne (a b : Char) (as bs : Line) (h : a ≠ b) :
    (a :: as).isPrefixOf (b :: bs) = false := by
  simp [List.isPrefixOf, h]

theorem isPrefixOf_single_cons (a c : Char) (cs : Line) :
    [a].isPrefixOf (c :: cs) = (a == c) := by
  simp [List.isPrefixOf]

theorem isPrefixOf_single_append (a : Char) (f t : Line) (h : f ≠ []) :
    [a].isPrefixOf (f ++ t) = [a].isPrefixOf f := by
  match f with
  | [] => exact absurd rfl h
  | c :: cs => rw [List.cons_append, isPrefixOf_single_cons, isPrefixOf_single_cons]

theorem joinSp_cons (f : Line) (rest : List Line) :
    ∃ tail, joinSp (f :: rest) = f ++ tail := by
  match rest with
  | [] => exact ⟨[], by simp [joinSp]⟩
  | y :: ys => exact ⟨' ' :: joinSp (y :: ys), by simp [joinSp]⟩

theorem isBlank_joinSp_false (r : List Line) (f : Line)
    (hf1 : r.headD [] = f) (hf2 : f ≠ []) (hf3 : noWs f = true) (hr : r ≠ []) :
    isBlank (joinSp r) = false := by
  match r with
  | [] => exact absurd rfl hr
  | g :: rest =>
    have hg : g = f := by simpa using hf1
    subst hg
    obtain ⟨tail, htail⟩ := joinSp_cons g rest
    rw [htail]
    match g with
    | [] => exact absurd rfl hf2
    | c :: cs =>
      have hc : c.isWhitespace = false := by
        have := (List.all_eq_true.mp hf3) c (by simp)
        simpa using this
      simp [isBlank, hc]

theorem isPrefixOf_underscore_joinSp (r : List Line) (f : Line)
    (hf1 : r.headD [] = f) (hf2 : f ≠ []) (hr : r ≠ []) :
    (chars "_").isPrefixOf (joinSp r) = (chars "_").isPrefixOf f := by
  match r with
  | [] => exact absurd rfl hr
  | g :: rest =>
    have hg : g = f := by simpa using hf1
    subst hg
    obtain ⟨tail, htail⟩ := joinSp_cons g rest
    rw [htail]
    exact isPrefixOf_single_append '_' g tail hf2

/-! ### Scan, header and body loop lemmas -/

theorem scanFor_skip_one (p : Line → Bool) (a : Line) (ha : p a = false)
    (last : Option Line) (f : List Line) :
    scanFor p last (a :: f) = scanFor p (some a) f := by
  rw [scanFor, if_neg (by simp [ha])]

theorem scanFor_hit (p : Line → Bool) (l0 : Line) (h0 : p l0 = true)
    (last : Option Line) (rest : List Line) :
    scanFor p last (l0 :: rest) = (some l0, rest) := by
  rw [scanFor, if_pos (by simp [h0])]

theorem scanFor_append_hit (p : Line → Bool) (junk : List Line)
    (hj : ∀ l ∈ junk, p l = false) (l0 : Line) (h0 : p l0 = true)
    (rest : List Line) (last : Option Line) :
    scanFor p last (junk ++ l0 :: rest) = (some l0, rest) := by
  induction junk generalizing last with
  | nil => simp [scanFor, h0]
  | cons a as ih =>
    have ha : p a = false := hj a (by simp)
    rw [List.cons_append, scanFor, if_neg (by simp [ha])]
    exact ih (fun l hl => hj l (by simp [hl])) (some a)

theorem scanFor_no_match (p : Line → Bool) (f : List Line) (hne : f ≠ [])
    (h : ∀ l ∈ f, p l = false) (last : Option Line) :
    scanFor p last f = (some (f.getLastD []), []) := by
  induction f generalizing last with
  | nil => exact absurd rfl hne
  | cons a as ih =>
    have ha : p a = false := h a (by simp)
    rw [scanFor, if_neg (by simp [ha])]
    match as with
    | [] => rfl
    | b :: bs =>
      rw [ih (by simp) (fun l hl => h l (by simp [hl])) (some a)]
      simp [List.getLastD]

theorem readHeaders_cols (cols : List Line)
    (hc : ∀ c ∈ cols, (chars "_").isPrefixOf c = true ∧ noWs c = true)
    (r1 : Line) (h1 : (chars "_").isPrefixOf r1 = false)
    (rest : List Line) (last : Option Line) :
    readHeaders last (cols ++ r1 :: rest) = (cols, some r1, rest) := by
  induction cols generalizing last with
  | nil =>
    rw [List.nil_append, readHeaders, if_neg (by simp [h1])]
  | cons c cs ih =>
    obtain ⟨hcp, hcw⟩ := hc c (by simp)
    have hcne : c ≠ [] := by
      intro hnil
      rw [hnil] at hcp
      exact absurd hcp (by simp [isPrefixOf_cons_nil, chars])
    rw [List.cons_append, readHeaders, if_pos hcp,
      ih (fun x hx => hc x (by simp [hx])) (some c)]
    simp [splitWs_token c hcne hcw]

theorem readBody_rows (rls : List Line) (h : ∀ l ∈ rls, isBlank l = false)
    (rest : List Line) :
    readBody (rls ++ [] :: rest) = (rls.map splitWs, rest) := by
  induction rls with
  | nil =>
    rw [List.nil_append, readBody, if_pos (by simp [isBlank])]
    simp
  | cons a as ih =>
    have ha : isBlank a = false := h a (by simp)
    rw [List.cons_append, readBody, if_neg (by simp [ha]),
      ih (fun l hl => h l (by simp [hl]))]
    simp

/-! ### Reading back an encoded block -/

theorem map_splitWs_joinSp (rs : List (List Line))
    (h : ∀ r ∈ rs, ∀ x ∈ r, x ≠ [] ∧ noWs x = true) :
    List.map splitWs (List.map joinSp rs) = rs := by
  induction rs with
  | nil => rfl
  | cons r rs2 ih =>
    simp only [List.map_cons, List.cons.injEq]
    constructor
    · exact splitWs_joinSp r (h r (by simp))
    · exact ih (fun q hq => h q (by simp [hq]))

theorem read_block_write_block (bn : Line) (df : DataFrame) (junk rest : List Line)
    (hjunk : ∀ l ∈ junk, bn.isPrefixOf l = false)
    (hbn : stripLine bn = bn)
    (hg : goodDF df) :
    read_block bn (junk ++ (write_block bn df ++ rest)) =
      .ok (df.columns, df.rows, rest) := by
  obtain ⟨cols, rows⟩ := df
  obtain ⟨hc0, hcg, hr0, hrows, hfirst⟩ := hg
  simp only at hc0 hcg hr0 hrows hfirst
  cases rows with
  | nil => exact absurd rfl hr0
  | cons row1 rowsTail =>
    have hrow1 := hrows row1 (by simp)
    have hrow1ne : row1 ≠ [] := by
      intro hnil
      rw [hnil] at hrow1
      exact hc0 (List.eq_nil_of_length_eq_zero hrow1.1.symm)
    have hf1mem : row1.headD [] ∈ row1 := by
      cases row1 with
      | nil => exact absurd rfl hrow1ne
      | cons g gs => simp
    have hf1 := hrow1.2 (row1.headD []) hf1mem
    have hfirst2 : (chars "_").isPrefixOf (row1.headD []) = false := by
      simpa using hfirst
    have hwb : write_block bn ⟨cols, row1 :: rowsTail⟩ ++ rest =
        bn :: ([] :: (chars "loop_" :: (cols ++ joinSp row1 ::
          (List.map joinSp rowsTail ++ [] :: rest)))) := by
      simp [write_block, hbn, hc0, List.append_assoc]
    rw [hwb]
    simp only [read_block]
    rw [scanFor_append_hit _ junk hjunk bn (isPrefixOf_self bn) _ none]
    simp only
    rw [scanFor_skip_one _ [] (by rfl) _ _,
      scanFor_hit _ (chars "loop_") (isPrefixOf_self _) _ _]
    simp only
    rw [readHeaders_cols cols hcg (joinSp row1)
      (by
        rw [isPrefixOf_underscore_joinSp row1 (row1.headD []) rfl hf1.1 hrow1ne]
        exact hfirst2)
      _ _]
    simp only
    rw [readBody_rows (List.map joinSp rowsTail)
      (by
        intro l hl
        obtain ⟨r, hr, rfl⟩ := List.mem_map.mp hl
        have hrr := hrows r (by simp [hr])
        have hrne : r ≠ [] := by
          intro hnil
          rw [hnil] at hrr
          exact hc0 (List.eq_nil_of_length_eq_zero hrr.1.symm)
        have hmem : r.headD [] ∈ r := by
          cases r with
          | nil => exact absurd rfl hrne
          | cons g gs => simp
        have hfld := hrr.2 (r.headD []) hmem
        exact isBlank_joinSp_false r (r.headD []) rfl hfld.1 hfld.2 hrne)
      rest]
    simp only
    rw [map_splitWs_joinSp rowsTail
      (fun q hq => (hrows q (by simp [hq])).2)]
    rw [splitWs_joinSp row1 hrow1.2]
    rw [if_pos ?hall, if_pos ?hlen]
    case hlen => exact hrow1.1.symm ▸ rfl
    case hall =>
      refine List.all_eq_true.mpr ?_
      intro r hr
      have := (hrows r (by simpa using hr)).1
      simp [this, hrow1.1]

/-! ### Layout detection on written output -/

theorem detect_prov (ts : Line) (tl : List Line) :
    detectRelion31 (provenance ts :: tl) = detectRelion31 tl := rfl

theorem detect_blank_cons (tl : List Line) :
    detectRelion31 ([] :: tl) = detectRelion31 tl := rfl

theorem detect_data_optics (tl : List Line) :
    detectRelion31 (chars "data_optics" :: tl) = some true := rfl

theorem detect_data_legacy (tl : List Line) :
    detectRelion31 (chars "data_" :: tl) = some false := rfl

theorem notPre_prov (ts : Line) (c : Char) (cs : Line) (h : c ≠ '#') :
    (c :: cs).isPrefixOf (provenance ts) = false := by
  rw [show provenance ts = '#' :: (chars " Created by cryoPICLS at " ++ ts) from rfl]
  exact isPrefixOf_cons_ne c '#' cs _ h

theorem dataTok_notPre_prov (ts : Line) :
    (chars "data_").isPrefixOf (provenance ts) = false := by
  rw [show chars "data_" = 'd' :: chars "ata_" from rfl]
  exact notPre_prov ts 'd' (chars "ata_") (by decide)

theorem opticsTok_notPre_prov (ts : Line) :
    (chars "data_optics").isPrefixOf (provenance ts) = false := by
  rw [show chars "data_optics" = 'd' :: chars "ata_optics" from rfl]
  exact notPre_prov ts 'd' (chars "ata_optics") (by decide)

/-! ### C1: the write/load round trip -/

/-- C1 (amended): for a Document whose tables each have at least one
sentinel-prefixed whitespace-free column, at least one row, rows of the
column count made of non-empty whitespace-free fields, and a first row
whose first field does not begin with `_`, loading the written file
restores the tables exactly (and records the path). -/
theorem c1_round_trip (md : RelionMetaData) (path ts : Line)
    (hp : goodDF md.df_particles)
    (ho : ∀ dfo, md.df_optics = some dfo → goodDF dfo) :
    load path (write md ts) = .ok ⟨md.df_particles, md.df_optics, some path⟩ := by
  obtain ⟨dfp, dfo, sf⟩ := md
  simp only at hp ho ⊢
  cases dfo with
  | none =>
    have hw : write ⟨dfp, none, sf⟩ ts =
        [provenance ts, []] ++ (write_block (chars "data_") dfp ++ []) := by
      simp [write]
    have hjunk : ∀ l ∈ [provenance ts, ([] : Line)],
        (chars "data_").isPrefixOf l = false := by
      intro l hl
      simp only [List.mem_cons, List.mem_singleton] at hl
      rcases hl with rfl | rfl | h
      · exact dataTok_notPre_prov ts
      · rfl
      · simp at h
    have hread := read_block_write_block (chars "data_") dfp
      [provenance ts, []] [] hjunk rfl hp
    have hdet : detectRelion31 (write ⟨dfp, none, sf⟩ ts) = some false := by
      rw [hw]
      simp only [List.append_nil, List.cons_append, List.nil_append]
      rw [write_block, show stripLine (chars "data_") = chars "data_" from rfl,
        detect_prov, detect_blank_cons, detect_data_legacy]
    rw [load, hdet]
    simp only [load_relion]
    rw [hw, hread]
  | some dfOpt =>
    have hgo : goodDF dfOpt := ho dfOpt rfl
    have hw : write ⟨dfp, some dfOpt, sf⟩ ts =
        [provenance ts, []] ++ (write_block (chars "data_optics") dfOpt ++
          write_block (chars "data_particles") dfp) := by
      simp [write]
    have hjunk : ∀ l ∈ [provenance ts, ([] : Line)],
        (chars "data_optics").isPrefixOf l = false := by
      intro l hl
      simp only [List.mem_cons, List.mem_singleton] at hl
      rcases hl with rfl | rfl | h
      · exact opticsTok_notPre_prov ts
      · rfl
      · simp at h
    have hread1 := read_block_write_block (chars "data_optics") dfOpt
      [provenance ts, []] (write_block (chars "data_particles") dfp) hjunk rfl hgo
    have hread2 : read_block (chars "data_particles")
        (write_block (chars "data_particles") dfp) =
        .ok (dfp.columns, dfp.rows, []) := by
      have := read_block_write_block (chars "data_particles") dfp [] []
        (by intro l hl; simp at hl) rfl hp
      simpa using this
    have hdet : detectRelion31 (write ⟨dfp, some dfOpt, sf⟩ ts) = some true := by
      rw [hw, write_block,
        show stripLine (chars "data_optics") = chars "data_optics" from rfl]
      simp only [List.cons_append, List.nil_append]
      rw [detect_prov, detect_blank_cons, detect_data_optics]
    rw [load, hdet]
    simp only [load_relion31]
    rw [hw, hread1]
    simp only
    rw [hread2]

/-! ### C2: layout detection and unrecognized leading tokens -/

/-- C2 counterexample: the first meaningful line of `fileC2` is `foo_bar`,
yet `load` does not fail — the detection loop silently skips the
unrecognized line and classifies the file by the `data_optics` marker on
the next line. -/
theorem c2_counterexample :
    firstMeaningfulTok fileC2 = some (chars "foo_bar") ∧
    load (chars "in.star") fileC2 =
      .ok ⟨⟨[chars "_b"], [[chars "2"]]⟩, some ⟨[chars "_a"], [[chars "1"]]⟩,
        some (chars "in.star")⟩ :=
  ⟨rfl, rfl⟩

/-- C2 (amended): the detection loop of `load` skips any line whose first
token is neither `data_optics` nor `data_` (blank, comment or otherwise),
and `load` fails with the invalid-starfile assertion exactly when the
detection scan finds no marker at all. -/
theorem detect_cons_nil_tok (l : Line) (ls : List Line) (hs : splitWs l = []) :
    detectRelion31 (l :: ls) = detectRelion31 ls := by
  rw [detectRelion31, hs]

theorem detect_cons_tok (l : Line) (ls : List Line) (w : Line) (ws : List Line)
    (hs : splitWs l = w :: ws) :
    detectRelion31 (l :: ls) =
      (if w = chars "data_optics" then some true
       else if w = chars "data_" then some false
       else if w.headD ' ' = '#' then detectRelion31 ls
       else detectRelion31 ls) := by
  rw [detectRelion31, hs]

theorem fm_cons_nil_tok (l : Line) (ls : List Line) (hs : splitWs l = []) :
    firstMeaningfulTok (l :: ls) = firstMeaningfulTok ls := by
  rw [firstMeaningfulTok, hs]

theorem fm_cons_tok (l : Line) (ls : List Line) (w : Line) (ws : List Line)
    (hs : splitWs l = w :: ws) :
    firstMeaningfulTok (l :: ls) =
      (if w.headD ' ' = '#' then firstMeaningfulTok ls else some w) := by
  rw [firstMeaningfulTok, hs]

theorem c2_detection (l : Line) (f : List Line) (path : Line)
    (h1 : (splitWs l).headD [] ≠ chars "data_optics")
    (h2 : (splitWs l).headD [] ≠ chars "data_") :
    detectRelion31 (l :: f) = detectRelion31 f ∧
    (detectRelion31 f = none → load path f = .error .assertInvalidStar) := by
  constructor
  · cases hs : splitWs l with
    | nil => exact detect_cons_nil_tok l f hs
    | cons w ws =>
      rw [hs] at h1 h2
      simp only [List.headD_cons] at h1 h2
      rw [detect_cons_tok l f w ws hs, if_neg h1, if_neg h2]
      by_cases hc : w.headD ' ' = '#'
      · rw [if_pos hc]
      · rw [if_neg hc]
  · intro hd
    rw [load, hd]

/-- C2 witness: skipping at the concrete line `foo_bar`, and the concrete
marker-free file `[foo_bar]` failing the layout assertion. -/
theorem c2_detection_witness :
    detectRelion31 [chars "foo_bar", chars "qux"] = detectRelion31 [chars "qux"] ∧
    (detectRelion31 [chars "qux"] = none →
      load (chars "w.star") [chars "qux"] = .error .assertInvalidStar) :=
  c2_detection (chars "foo_bar") [chars "qux"] (chars "w.star")
    (by decide) (by decide)

/-! ### C3: layout fidelity -/

theorem detect_of_fm_optics (f : List Line)
    (h : firstMeaningfulTok f = some (chars "data_optics")) :
    detectRelion31 f = some true := by
  induction f with
  | nil => simp [firstMeaningfulTok] at h
  | cons l ls ih =>
    cases hs : splitWs l with
    | nil =>
      rw [fm_cons_nil_tok l ls hs] at h
      rw [detect_cons_nil_tok l ls hs]
      exact ih h
    | cons w ws =>
      rw [fm_cons_tok l ls w ws hs] at h
      rw [detect_cons_tok l ls w ws hs]
      by_cases hw : w = chars "data_optics"
      · rw [if_pos hw]
      · have hcm : w.headD ' ' = '#' := by
          by_contra hcm
          rw [if_neg hcm] at h
          exact hw (by injection h)
        have hw2 : w ≠ chars "data_" := by
          intro he
          rw [he] at hcm
          exact absurd hcm (by decide)
        rw [if_pos hcm] at h
        rw [if_neg hw, if_neg hw2, if_pos hcm]
        exact ih h

theorem detect_of_fm_legacy (f : List Line)
    (h : firstMeaningfulTok f = some (chars "data_")) :
    detectRelion31 f = some false := by
  induction f with
  | nil => simp [firstMeaningfulTok] at h
  | cons l ls ih =>
    cases hs : splitWs l with
    | nil =>
      rw [fm_cons_nil_tok l ls hs] at h
      rw [detect_cons_nil_tok l ls hs]
      exact ih h
    | cons w ws =>
      rw [fm_cons_tok l ls w ws hs] at h
      rw [detect_cons_tok l ls w ws hs]
      by_cases hw : w = chars "data_"
      · rw [hw, if_neg (show chars "data_" ≠ chars "data_optics" by decide),
          if_pos rfl]
      · have hcm : w.headD ' ' = '#' := by
          by_contra hcm
          rw [if_neg hcm] at h
          exact hw (by injection h)
        have hw2 : w ≠ chars "data_optics" := by
          intro he
          rw [he] at hcm
          exact absurd hcm (by decide)
        rw [if_pos hcm] at h
        rw [if_neg hw2, if_neg hw, if_pos hcm]
        exact ih h

/-- C3: a successfully loaded file whose first meaningful token is
`data_optics` yields a Document with an optics table present, and one whose
first meaningful token is `data_` yields a Document with no optics
table. -/
theorem c3_layout_fidelity (path : Line) (f : List Line) (md : RelionMetaData)
    (h : load path f = .ok md) :
    (firstMeaningfulTok f = some (chars "data_optics") →
      md.df_optics.isSome = true) ∧
    (firstMeaningfulTok f = some (chars "data_") → md.df_optics = none) := by
  constructor
  · intro hfm
    rw [load, detect_of_fm_optics f hfm] at h
    cases hl : load_relion31 f with
    | error e => rw [hl] at h; exact absurd h (by simp)
    | ok pr =>
      obtain ⟨dp, dopt⟩ := pr
      rw [hl] at h
      simp only [Except.ok.injEq] at h
      rw [← h]
      rfl
  · intro hfm
    rw [load, detect_of_fm_legacy f hfm] at h
    cases hl : load_relion f with
    | error e => rw [hl] at h; exact absurd h (by simp)
    | ok dp =>
      rw [hl] at h
      simp only [Except.ok.injEq] at h
      rw [← h]

/-- C3 witness: the fidelity theorem applied to one concrete modern file
and one concrete legacy file. -/
theorem c3_layout_fidelity_witness :
    docModern.df_optics.isSome = true ∧ docLegacy.df_optics = none :=
  ⟨(c3_layout_fidelity (chars "in.star") fileModern docModern rfl).1 rfl,
   (c3_layout_fidelity (chars "in.star") fileLegacy docLegacy rfl).2 rfl⟩

/-! ### C4: missing markers do not raise structure-not-found errors -/

theorem c4_counterexample :
    read_block (chars "data_particles") [chars "foo", []] = .ok ([], [[]], []) ∧
    read_block (chars "data_particles") [chars "data_particles", []] =
      .ok ([], [[]], []) :=
  ⟨rfl, rfl⟩

/-- C4 (amended): when the scan for the block name exhausts the stream, the
two remaining scans consume nothing, the last consumed line becomes the
sole body row, and `_read_block` returns a degenerate zero-header table
when that line is blank and fails the arity assertion when it is not; no
block-not-found error exists. -/
theorem c4_scan_exhaustion (bn : Line) (f : List Line) (hne : f ≠ [])
    (hnomatch : ∀ l ∈ f, bn.isPrefixOf l = false) :
    read_block bn f =
      (if isBlank (f.getLastD []) then .ok ([], [[]], [])
       else .error .assertArity) := by
  have hs1 : scanFor (fun l => bn.isPrefixOf l) none f = (some (f.getLastD []), []) :=
    scanFor_no_match _ f hne hnomatch none
  simp only [read_block, hs1, scanFor, readHeaders, readBody]
  by_cases hb : isBlank (f.getLastD [])
  · rw [if_pos hb, splitWs_blank _ hb]
    simp
  · rw [if_neg hb]
    have hb2 : isBlank (f.getLastD []) = false := eq_false_of_ne_true hb
    have hlen : ¬((List.length ([] : List Line)) =
        (splitWs (f.getLastD [])).length) := by
      intro h0
      refine splitWs_ne_nil _ hb2 (List.length_eq_zero.mp ?_)
      simpa using h0.symm
    rw [if_pos (by simp), if_neg hlen]

/-- C4 witness: a concrete two-line stream with no `data_optics` marker and
a non-blank final line. -/
theorem c4_scan_exhaustion_witness :
    read_block (chars "data_optics") [chars "abc", chars "de"] =
      (if isBlank ([chars "abc", chars "de"].getLastD []) then
        .ok ([], [[]], []) else .error .assertArity) :=
  c4_scan_exhaustion (chars "data_optics") [chars "abc", chars "de"]
    (by decide) (by decide)

/-! ### C5: the arity invariant -/

theorem readHeaders_cols_tok (cols : List Line)
    (hc : ∀ c ∈ cols, (chars "_").isPrefixOf c = true)
    (r1 : Line) (h1 : (chars "_").isPrefixOf r1 = false)
    (rest : List Line) (last : Option Line) :
    readHeaders last (cols ++ r1 :: rest) =
      (cols.map (fun c => (splitWs c).headD []), some r1, rest) := by
  induction cols generalizing last with
  | nil =>
    rw [List.nil_append, readHeaders, if_neg (by simp [h1])]
    rfl
  | cons c cs ih =>
    rw [List.cons_append, readHeaders, if_pos (hc c (by simp)),
      ih (fun x hx => hc x (by simp [hx])) (some c)]
    simp

/-- C5: every table `_read_block` returns has each row's field count equal
to the header count; and on an encoded block whose body contains a row of
the wrong token count, `_read_block` fails (by the ragged-array error or
the arity assertion). -/
theorem c5_arity :
    (∀ (bn : Line) (f : List Line) (hs : List Line)
        (body : List (List Line)) (rest : List Line),
      read_block bn f = .ok (hs, body, rest) →
      ∀ r ∈ body, r.length = hs.length) ∧
    (∀ (bn : Line) (hlines rlines rest : List Line),
      (∀ c ∈ hlines, (chars "_").isPrefixOf c = true) →
      (∀ l ∈ rlines, isBlank l = false) →
      rlines ≠ [] →
      (chars "_").isPrefixOf (rlines.headD []) = false →
      (∃ l ∈ rlines, (splitWs l).length ≠ hlines.length) →
      (read_block bn
        (bn :: chars "loop_" :: (hlines ++ (rlines ++ [] :: rest)))).isOk =
        false) := by
  constructor
  · intro bn f hs body rest h
    simp only [read_block] at h
    generalize hrh : readHeaders (scanFor (fun l => (chars "loop_").isPrefixOf l)
      (scanFor (fun l => bn.isPrefixOf l) none f).1
      (scanFor (fun l => bn.isPrefixOf l) none f).2).1
      (scanFor (fun l => (chars "loop_").isPrefixOf l)
        (scanFor (fun l => bn.isPrefixOf l) none f).1
        (scanFor (fun l => bn.isPrefixOf l) none f).2).2 = rh at h
    obtain ⟨headers, last3, f3⟩ := rh
    cases last3 with
    | none => exact absurd h (by simp)
    | some line =>
      simp only at h
      by_cases hall : ((splitWs line :: (readBody f3).1).all
          (fun r => r.length = (splitWs line).length)) = true
      · rw [if_pos hall] at h
        by_cases hlen : headers.length = (splitWs line).length
        · rw [if_pos hlen] at h
          simp only [Except.ok.injEq, Prod.mk.injEq] at h
          obtain ⟨hh, hb, _⟩ := h
          intro r hr
          rw [← hb] at hr
          have := List.all_eq_true.mp hall r hr
          simp only [decide_eq_true_eq] at this
          rw [this, ← hh, hlen]
        · rw [if_neg hlen] at h
          exact absurd h (by simp)
      · rw [if_neg hall] at h
        exact absurd h (by simp)
  · intro bn hlines rlines rest hh hnb hrne hr1 hmis
    cases rlines with
    | nil => exact absurd rfl hrne
    | cons r1 rlTail =>
      simp only [List.headD_cons] at hr1
      simp only [read_block]
      rw [scanFor_hit _ bn (isPrefixOf_self bn) none _]
      simp only
      rw [scanFor_hit _ (chars "loop_") (isPrefixOf_self _) _ _]
      simp only
      rw [show hlines ++ (r1 :: rlTail ++ [] :: rest) =
        hlines ++ r1 :: (rlTail ++ [] :: rest) from by simp]
      rw [readHeaders_cols_tok hlines hh r1 hr1 _ _]
      simp only
      rw [readBody_rows rlTail (fun l hl => hnb l (by simp [hl])) rest]
      simp only
      by_cases hall : ((splitWs r1 :: (rlTail.map splitWs)).all
          (fun r => r.length = (splitWs r1).length)) = true
      · rw [if_pos hall]
        have hlen1 : (splitWs r1).length ≠ hlines.length := by
          obtain ⟨l, hl, hne2⟩ := hmis
          rcases List.mem_cons.mp hl with rfl | hl2
          · exact hne2
          · have hmem : splitWs l ∈ splitWs r1 :: rlTail.map splitWs := by
              simp only [List.mem_cons]
              exact Or.inr (List.mem_map_of_mem splitWs hl2)
            have := List.all_eq_true.mp hall (splitWs l) hmem
            simp only [decide_eq_true_eq] at this
            rw [← this]
            exact hne2
        rw [if_neg (by
          intro he
          rw [List.length_map] at he
          exact hlen1 he.symm)]
        rfl
      · rw [if_neg hall]
        rfl

/-- C5 witness: the invariant instantiated on the row of a concretely
parsed legacy block, and a concrete block with two headers but a one-field
row failing. -/
theorem c5_arity_witness :
    ([chars "1"] : List Line).length = ([chars "_a"] : List Line).length ∧
    (read_block (chars "data_")
      (chars "data_" :: chars "loop_" ::
        ([chars "_a", chars "_b"] ++ ([chars "1"] ++ [] :: [])))).isOk =
      false :=
  ⟨c5_arity.1 (chars "data_") fileLegacy [chars "_a"] [[chars "1"]] [] rfl
      [chars "1"] (by simp),
   c5_arity.2 (chars "data_") [chars "_a", chars "_b"] [chars "1"] []
      (by decide) (by decide) (by decide) (by decide)
      ⟨chars "1", by decide, by decide⟩⟩

/-! ### C6, C7, C10: row projection -/

/-- C6: with all positions in range, `iloc` returns a new Document whose
primary table holds exactly the selected rows in the requested order
(repeats and reordering included); with some position out of range it
fails with the index error. -/
theorem c6_projection :
    (∀ (md : RelionMetaData) (idxs : List Nat),
      (∀ i ∈ idxs, i < md.df_particles.rows.length) →
      iloc md idxs = .ok ⟨⟨md.df_particles.columns,
        idxs.map (fun i => md.df_particles.rows.getD i [])⟩,
        md.df_optics, none⟩) ∧
    (∀ (md : RelionMetaData) (idxs : List Nat),
      (∃ i ∈ idxs, md.df_particles.rows.length ≤ i) →
      iloc md idxs = .error .indexOutOfBounds) := by
  constructor
  · intro md idxs h
    have hall : (idxs.all fun i => decide (i < md.df_particles.rows.length)) =
        true := by
      refine List.all_eq_true.mpr ?_
      intro i hi
      simpa using h i hi
    rw [iloc, ilocDF, if_pos hall]
  · intro md idxs h
    obtain ⟨i, hi, hle⟩ := h
    have hall : ¬((idxs.all fun i => decide (i < md.df_particles.rows.length)) =
        true) := by
      intro hT
      have := List.all_eq_true.mp hT i hi
      simp only [decide_eq_true_eq] at this
      omega
    rw [iloc, ilocDF, if_neg hall]

/-- C6 witness: indices `[2,0,2]` on the three-row table, and index `5` out
of range. -/
theorem c6_projection_witness :
    iloc md3 [2, 0, 2] = .ok ⟨⟨md3.df_particles.columns,
      [2, 0, 2].map (fun i => md3.df_particles.rows.getD i [])⟩,
      md3.df_optics, none⟩ ∧
    iloc md3 [5] = .error .indexOutOfBounds :=
  ⟨c6_projection.1 md3 [2, 0, 2] (by decide),
   c6_projection.2 md3 [5] ⟨5, by decide, by decide⟩⟩

/-- C7: projection passes the optics table through unchanged — in this pure
embedding "the very same table object" is equality of the `df_optics`
values, and the source Document is untouched by construction, since `iloc`
computes a fresh `RelionMetaData` from `md` without modifying it. -/
theorem c7_projection_frame (md : RelionMetaData) (idxs : List Nat)
    (md2 : RelionMetaData) (h : iloc md idxs = .ok md2) :
    md2.df_optics = md.df_optics := by
  rw [iloc] at h
  cases hl : ilocDF md.df_particles idxs with
  | error e => rw [hl] at h; exact absurd h (by simp)
  | ok dfNew =>
    rw [hl] at h
    simp only [Except.ok.injEq] at h
    rw [← h]

/-- C7 witness: the frame property at a concrete projection. -/
theorem c7_projection_frame_witness :
    (⟨⟨[chars "_a"], [[chars "r0"]]⟩, none, none⟩ :
      RelionMetaData).df_optics = md3.df_optics :=
  c7_projection_frame md3 [0] ⟨⟨[chars "_a"], [[chars "r0"]]⟩, none, none⟩ rfl

/-- C10: a projected Document always has `starfile = None` — `iloc` builds
the new instance without passing `starfile`, so `__init__` defaults it —
even though the optics table is carried over. -/
theorem c10_projection_drops_starfile (md : RelionMetaData) (idxs : List Nat)
    (md2 : RelionMetaData) (hpath : md.starfile.isSome = true)
    (h : iloc md idxs = .ok md2) :
    md2.starfile = none ∧ md2.df_optics = md.df_optics := by
  rw [iloc] at h
  cases hl : ilocDF md.df_particles idxs with
  | error e => rw [hl] at h; exact absurd h (by simp)
  | ok dfNew =>
    rw [hl] at h
    simp only [Except.ok.injEq] at h
    rw [← h]
    exact ⟨rfl, rfl⟩

/-- C10 witness: projecting a loaded modern Document (which carries its
source path and an optics table). -/
theorem c10_projection_drops_starfile_witness :
    (⟨⟨[chars "_b"], [[chars "2"]]⟩, docModern.df_optics, none⟩ :
      RelionMetaData).starfile = none ∧
    (⟨⟨[chars "_b"], [[chars "2"]]⟩, docModern.df_optics, none⟩ :
      RelionMetaData).df_optics = docModern.df_optics :=
  c10_projection_drops_starfile docModern [0]
    ⟨⟨[chars "_b"], [[chars "2"]]⟩, docModern.df_optics, none⟩
    (by decide) rfl

/-! ### C8: shape of the written file -/

/-- C8 counterexample: for a Document whose particles table has zero
columns, `write` emits an extra blank line where the claim requires one
line per column name (`'\n'.join([])` followed by `'\n'` is a blank line,
not the absence of lines). -/
theorem c8_counterexample :
    write ⟨⟨[], []⟩, none, none⟩ [] ≠
      specWriteShape ⟨⟨[], []⟩, none, none⟩ [] := by
  decide

/-- C8 (amended): for every Document whose tables each have at least one
column, `write` emits exactly the claimed shape: one `#`-prefixed
provenance line, a blank line, then per block the block-name line, a blank
line, the `loop_` line, one line per column name in order, one line per
row with fields joined by single spaces, and a trailing blank line. -/
theorem c8_write_shape (md : RelionMetaData) (ts : Line)
    (hp : md.df_particles.columns ≠ [])
    (ho : ∀ dfo, md.df_optics = some dfo → dfo.columns ≠ []) :
    write md ts = specWriteShape md ts ∧
    (chars "#").isPrefixOf (provenance ts) = true := by
  refine ⟨?_, rfl⟩
  obtain ⟨dfp, dfo, sf⟩ := md
  simp only at hp ho
  cases dfo with
  | none =>
    simp only [write, specWriteShape, write_block, specBlockShape,
      show stripLine (chars "data_") = chars "data_" from rfl, if_neg hp]
  | some dfOpt =>
    have hoc : dfOpt.columns ≠ [] := ho dfOpt rfl
    simp only [write, specWriteShape, write_block, specBlockShape,
      show stripLine (chars "data_optics") = chars "data_optics" from rfl,
      show stripLine (chars "data_particles") = chars "data_particles" from rfl,
      if_neg hp, if_neg hoc]

/-- C8 witness: the amended shape at a concrete modern Document. -/
theorem c8_write_shape_witness :
    write docModern (chars "t") = specWriteShape docModern (chars "t") ∧
    (chars "#").isPrefixOf (provenance (chars "t")) = true :=
  c8_write_shape docModern (chars "t") (by decide)
    (by
      intro dfo h
      rw [show docModern.df_optics = some ⟨[chars "_a"], [[chars "1"]]⟩ from rfl,
        Option.some_inj] at h
      rw [← h]
      decide)

/-! ### C9: zero-row blocks -/

/-- C9 counterexample: a block whose single header line is immediately
followed by a blank line fails the arity assertion instead of producing an
empty table — the blank line itself is collected as a zero-field body
row. -/
theorem c9_counterexample :
    read_block (chars "data_")
      [chars "data_", chars "loop_", chars "_a", []] = .error .assertArity :=
  rfl

/-- C9 (amended): whenever at least one header line is immediately followed
by a blank line (no data rows), `_read_block` fails: the blank line becomes
a zero-field body row, so either the body is ragged or the arity assertion
`len(headers) == 0` fails. -/
theorem c9_zero_row_block (bn : Line) (hlines rest : List Line)
    (hne : hlines ≠ [])
    (hh : ∀ c ∈ hlines, (chars "_").isPrefixOf c = true) :
    (read_block bn (bn :: chars "loop_" :: (hlines ++ [] :: rest))).isOk =
      false := by
  simp only [read_block]
  rw [scanFor_hit _ bn (isPrefixOf_self bn) none _]
  simp only
  rw [scanFor_hit _ (chars "loop_") (isPrefixOf_self _) _ _]
  simp only
  rw [readHeaders_cols_tok hlines hh [] rfl rest _]
  simp only
  by_cases hall : ((splitWs [] :: (readBody rest).1).all
      (fun r => r.length = (splitWs []).length)) = true
  · rw [if_pos hall]
    rw [if_neg (by
      intro he
      rw [List.length_map] at he
      cases hlines with
      | nil => exact absurd rfl hne
      | cons c cs => simp [splitWs, splitWsAux] at he)]
    rfl
  · rw [if_neg hall]
    rfl

/-- C9 witness: a concrete header-only block followed by more content. -/
theorem c9_zero_row_block_witness :
    (read_block (chars "data_")
      (chars "data_" :: chars "loop_" ::
        ([chars "_a"] ++ [] :: [chars "x"]))).isOk = false :=
  c9_zero_row_block (chars "data_") [chars "_a"] [chars "x"]
    (by decide) (by decide)

/-! ### C1: counterexample and witness -/

/-- C1 counterexample: the Document with one column `_a` and one row whose
single field is `_x` meets the claim's hypotheses (one row, non-empty
whitespace-free fields), yet `load (write D)` fails: on re-reading, the
body line `_x` begins with the header sentinel and is collected as a third
header, leaving a zero-field body row against two headers. -/
theorem c1_counterexample :
    ((⟨⟨[chars "_a"], [[chars "_x"]]⟩, none, none⟩ :
        RelionMetaData).df_particles.rows ≠ []) ∧
    ((⟨⟨[chars "_a"], [[chars "_x"]]⟩, none, none⟩ :
        RelionMetaData).df_particles.rows.all
      (fun r => r.all (fun x => !x.isEmpty && noWs x))) = true ∧
    load (chars "cex.star")
      (write (⟨⟨[chars "_a"], [[chars "_x"]]⟩, none, none⟩ :
        RelionMetaData) []) = .error .assertArity :=
  ⟨by decide, by decide, rfl⟩

/-- C1 witness: the round trip at a concrete modern Document with two
particle rows and one optics row. -/
theorem c1_round_trip_witness :
    load (chars "out.star") (write mdRT (chars "2026-10-12")) =
      .ok ⟨mdRT.df_particles, mdRT.df_optics, some (chars "out.star")⟩ :=
  c1_round_trip mdRT (chars "out.star") (chars "2026-10-12")
    (by decide)
    (by
      intro dfo h
      rw [show mdRT.df_optics = some ⟨[chars "_rlnVoltage"],
        [[chars "300"]]⟩ from rfl, Option.some_inj] at h
      rw [← h]
      decide)
